import Mathlib

/-!
Shallow embedding of `pns_attacks.py` (class `PNSAttackSimulator`): a
photon-number-splitting attack simulator for a simplified BB84 exchange.

Randomness is made explicit: every call of the Python `random` module is
modelled by a value supplied in a `RoundRand` record, so all theorems
quantify over every possible draw sequence.  The draw backing
`random.choices([0, 1, 2], weights=[0.7, 0.25, 0.05])` is a uniform value
`u` reduced mod 100 and compared against the cumulative weights 70 / 95,
exactly reproducing the three-outcome categorical distribution.
Python `None` becomes `Option.none`; the three parallel history columns of
each party are `List`s, appended to exactly as the source appends.
`eve_delayed_measurement` indexes lists and can raise `IndexError` in
Python, so its embedding returns `Option`, with `none` marking an
out-of-bounds access.
-/

namespace PNS

/-- A measurement basis, `'Z'` or `'X'` in the source. -/
inductive Basis : Type
  | Z
  | X
deriving DecidableEq, Repr

/-- State of the Python class `PNSAttackSimulator`: configuration plus the
six parallel per-round history lists. -/
structure PNSAttackSimulator : Type where
  mean_photon_number : ℚ
  eve_intercept : Bool
  alice_bits : List ℕ
  alice_bases : List Basis
  bob_bits : List (Option ℕ)
  bob_bases : List Basis
  eve_bits : List (Option ℕ)
  eve_bases : List (Option Basis)
deriving DecidableEq, Repr

/-- The `__init__` constructor: stores the configuration and starts all six
history lists empty. -/
def PNSAttackSimulator.init (mean_photon_number : ℚ) (eve_intercept : Bool) :
    PNSAttackSimulator :=
  ⟨mean_photon_number, eve_intercept, [], [], [], [], [], []⟩

/-- Result of `random.choices([0, 1, 2], weights=[0.7, 0.25, 0.05])[0]` on a
uniform draw `u` (taken mod 100): cumulative thresholds 70 and 95. -/
def photonCount (u : ℕ) : ℕ :=
  if u % 100 < 70 then 0 else if u % 100 < 95 then 1 else 2

/-- `generate_photon_number`: the method reads no instance state — the body
is a single `random.choices` call with hard-coded weights, so the stored
`mean_photon_number` is never consumed. -/
def PNSAttackSimulator.generate_photon_number (_self : PNSAttackSimulator)
    (u : ℕ) : ℕ :=
  photonCount u

/-- The random draws one `send_bit` call may consume: the photon-count draw,
Eve's basis draw `random.choice(['Z','X'])`, Eve's bit draw and Bob's bit
draw (each a `random.choice([0, 1])`).  Branches that draw fewer values
simply ignore the unused fields. -/
structure RoundRand : Type where
  photonDraw : ℕ
  eveBasisDraw : Basis
  eveBitDraw : ℕ
  bobBitDraw : ℕ
deriving DecidableEq, Repr

/-- The caller-supplied inputs of one `send_bit` call together with the
random draws it consumes. -/
structure RoundInput : Type where
  alice_bit : ℕ
  alice_basis : Basis
  bob_basis : Basis
  rand : RoundRand
deriving DecidableEq, Repr

/-- `send_bit(alice_bit, alice_basis, bob_basis)`: samples a photon count,
appends Alice's bit/basis and Bob's basis, then branches exactly as the
source does: vacuum, PNS (attack and multi-photon), intercept-resend
(attack, otherwise), or no attack. -/
def PNSAttackSimulator.send_bit (self : PNSAttackSimulator) (alice_bit : ℕ)
    (alice_basis bob_basis : Basis) (rnd : RoundRand) : PNSAttackSimulator :=
  let photon_num := self.generate_photon_number rnd.photonDraw
  let s := { self with
    alice_bits := self.alice_bits ++ [alice_bit]
    alice_bases := self.alice_bases ++ [alice_basis]
    bob_bases := self.bob_bases ++ [bob_basis] }
  if photon_num = 0 then
    -- no photon sent; Bob receives nothing (loss)
    let s := { s with bob_bits := s.bob_bits ++ [none] }
    if self.eve_intercept then { s with eve_bits := s.eve_bits ++ [none] }
    else s
  else if self.eve_intercept ∧ 1 < photon_num then
    -- PNS attack: Eve keeps one photon, delays measurement
    { s with
      eve_bits := s.eve_bits ++ [none]
      eve_bases := s.eve_bases ++ [none]
      bob_bits := s.bob_bits ++
        [if alice_basis = bob_basis then some alice_bit
         else some rnd.bobBitDraw] }
  else if self.eve_intercept then
    -- intercept-resend: Eve measures in a random basis and resends
    let eve_basis := rnd.eveBasisDraw
    let eve_bit := if eve_basis = alice_basis then alice_bit
      else rnd.eveBitDraw
    { s with
      eve_bases := s.eve_bases ++ [some eve_basis]
      eve_bits := s.eve_bits ++ [some eve_bit]
      bob_bits := s.bob_bits ++
        [if bob_basis = eve_basis then some eve_bit
         else some rnd.bobBitDraw] }
  else
    -- no Eve, perfect channel
    { s with
      eve_bits := s.eve_bits ++ [none]
      eve_bases := s.eve_bases ++ [none]
      bob_bits := s.bob_bits ++
        [if alice_basis = bob_basis then some alice_bit
         else some rnd.bobBitDraw] }

/-- One iteration of the `for i in range(len(self.eve_bits))` loop of
`eve_delayed_measurement`, acting on the pair of Eve columns.  Any list
access that Python would answer with `IndexError` yields `none`.  The
short-circuit `self.eve_bits[i] is None and self.eve_bases[i] is None` is
reproduced: `eve_bases[i]` is only read when `eve_bits[i]` is the
sentinel. -/
def resolveIdx (ab : List ℕ) (abas : List Basis)
    (st : List (Option ℕ) × List (Option Basis)) (i : ℕ) :
    Option (List (Option ℕ) × List (Option Basis)) :=
  match st.1[i]? with
  | none => none
  | some (some _) => some st
  | some none =>
    match st.2[i]? with
    | none => none
    | some (some _) => some st
    | some none =>
      match abas[i]?, ab[i]? with
      | some basis, some bit => some (st.1.set i (some bit), st.2.set i (some basis))
      | _, _ => none

/-- The loop of `eve_delayed_measurement` over an explicit list of indices,
threading the possibly-failing per-index step. -/
def resolveLoop (ab : List ℕ) (abas : List Basis) :
    List ℕ → List (Option ℕ) × List (Option Basis) →
      Option (List (Option ℕ) × List (Option Basis))
  | [], st => some st
  | i :: rest, st =>
    match resolveIdx ab abas st i with
    | none => none
    | some st' => resolveLoop ab abas rest st'

/-- `eve_delayed_measurement()`: for every index `i` below `len(eve_bits)`
whose Eve entries are both the `None` sentinel, assign
`eve_bases[i] = alice_bases[i]` and `eve_bits[i] = alice_bits[i]`.
Returns `none` when the Python loop would raise `IndexError`. -/
def PNSAttackSimulator.eve_delayed_measurement (self : PNSAttackSimulator) :
    Option PNSAttackSimulator :=
  (resolveLoop self.alice_bits self.alice_bases
      (List.range self.eve_bits.length) (self.eve_bits, self.eve_bases)).map
    fun st => { self with eve_bits := st.1, eve_bases := st.2 }

/-- A run: the fold of `send_bit` over a list of per-round inputs. -/
def runSends (sim : PNSAttackSimulator) (rounds : List RoundInput) :
    PNSAttackSimulator :=
  rounds.foldl
    (fun s r => s.send_bit r.alice_bit r.alice_basis r.bob_basis r.rand) sim

/-- A vacuum round: photon-count draw 0 (count 0), sender bit 0, all bases
`Z`. -/
def vacuumRound : RoundInput := ⟨0, Basis.Z, Basis.Z, ⟨0, Basis.Z, 0, 0⟩⟩

/-- A single-photon round: photon-count draw 80 (count 1), sender bit 1,
bases `Z`/`Z`, Eve's basis draw `Z`. -/
def singleRound : RoundInput := ⟨1, Basis.Z, Basis.Z, ⟨80, Basis.Z, 0, 0⟩⟩

/-- A multi-photon round: photon-count draw 99 (count 2), sender bit 1,
bases `Z`/`X`. -/
def multiRound : RoundInput := ⟨1, Basis.Z, Basis.X, ⟨99, Basis.Z, 0, 0⟩⟩

/-- The spec's attack-disabled concrete scenario: photon-count draw 80
(count 1), sender bit 0, both bases `X`. -/
def xRound : RoundInput := ⟨0, Basis.X, Basis.X, ⟨80, Basis.Z, 0, 0⟩⟩

/-- The single entry `send_bit` appends to `bob_bits` in one round, read off
branch by branch from the source. -/
def bobBitEntry (e : Bool) (r : RoundInput) : Option ℕ :=
  if photonCount r.rand.photonDraw = 0 then none
  else if e ∧ 1 < photonCount r.rand.photonDraw then
    if r.alice_basis = r.bob_basis then some r.alice_bit
    else some r.rand.bobBitDraw
  else if e then
    if r.bob_basis = r.rand.eveBasisDraw then
      some (if r.rand.eveBasisDraw = r.alice_basis then r.alice_bit
        else r.rand.eveBitDraw)
    else some r.rand.bobBitDraw
  else
    if r.alice_basis = r.bob_basis then some r.alice_bit
    else some r.rand.bobBitDraw

/-- The entries (zero or one) `send_bit` appends to `eve_bits` in one round.
Note the vacuum branch appends the sentinel exactly when the attack is
enabled. -/
def eveBitsEntry (e : Bool) (r : RoundInput) : List (Option ℕ) :=
  if photonCount r.rand.photonDraw = 0 then
    if e then [none] else []
  else if e ∧ 1 < photonCount r.rand.photonDraw then [none]
  else if e then
    [some (if r.rand.eveBasisDraw = r.alice_basis then r.alice_bit
      else r.rand.eveBitDraw)]
  else [none]

/-- The entries (zero or one) `send_bit` appends to `eve_bases` in one
round.  The vacuum branch appends nothing — even when the attack is enabled
and `eve_bits` does receive a sentinel entry. -/
def eveBasesEntry (e : Bool) (r : RoundInput) : List (Option Basis) :=
  if photonCount r.rand.photonDraw = 0 then []
  else if e ∧ 1 < photonCount r.rand.photonDraw then [none]
  else if e then [some r.rand.eveBasisDraw]
  else [none]

/-- Under attack mode the `eve_bits` entry of a round, as a single value
(the vacuum and PNS branches record the sentinel, the intercept-resend
branch records Eve's measured bit). -/
def eveBitT (r : RoundInput) : Option ℕ :=
  if photonCount r.rand.photonDraw = 0 then none
  else if 1 < photonCount r.rand.photonDraw then none
  else some (if r.rand.eveBasisDraw = r.alice_basis then r.alice_bit
    else r.rand.eveBitDraw)

/-- Under attack mode the `eve_bases` entry of a non-vacuum round, as a
single value. -/
def eveBasisT (r : RoundInput) : Option Basis :=
  if 1 < photonCount r.rand.photonDraw then none else some r.rand.eveBasisDraw

/-- The value `eve_bits[j]?` holds after one resolver pass touches index
`j`: the pair is filled from `alice_bits` when both entries are the
sentinel, and left alone otherwise. -/
def newBitAt (ab : List ℕ) (ebits : List (Option ℕ))
    (ebases : List (Option Basis)) (j : ℕ) : Option (Option ℕ) :=
  if ebits[j]? = some none ∧ ebases[j]? = some none then (ab[j]?).map some
  else ebits[j]?

/-- The value `eve_bases[j]?` holds after one resolver pass touches index
`j`. -/
def newBasisAt (abas : List Basis) (ebits : List (Option ℕ))
    (ebases : List (Option Basis)) (j : ℕ) : Option (Option Basis) :=
  if ebits[j]? = some none ∧ ebases[j]? = some none then (abas[j]?).map some
  else ebases[j]?

/-- Index `i` is settled when a resolver pass over it is a no-op: either the
bit entry is resolved, or the bit entry is the sentinel but the basis entry
is resolved (the short-circuited condition fails either way). -/
def settledAt (st : List (Option ℕ) × List (Option Basis)) (i : ℕ) : Prop :=
  (∃ v, st.1[i]? = some (some v)) ∨
    (st.1[i]? = some none ∧ ∃ b, st.2[i]? = some (some b))

theorem send_bit_eq (self : PNSAttackSimulator) (a : ℕ) (ab bb : Basis)
    (rnd : RoundRand) :
    self.send_bit a ab bb rnd = { self with
      alice_bits := self.alice_bits ++ [a]
      alice_bases := self.alice_bases ++ [ab]
      bob_bases := self.bob_bases ++ [bb]
      bob_bits := self.bob_bits ++ [bobBitEntry self.eve_intercept ⟨a, ab, bb, rnd⟩]
      eve_bits := self.eve_bits ++ eveBitsEntry self.eve_intercept ⟨a, ab, bb, rnd⟩
      eve_bases := self.eve_bases ++ eveBasesEntry self.eve_intercept ⟨a, ab, bb, rnd⟩ } := by
  simp only [PNSAttackSimulator.send_bit, PNSAttackSimulator.generate_photon_number,
    bobBitEntry, eveBitsEntry, eveBasesEntry]
  split_ifs <;> simp_all

theorem runSends_eq (sim : PNSAttackSimulator) (rounds : List RoundInput) :
    runSends sim rounds = { sim with
      alice_bits := sim.alice_bits ++ rounds.map RoundInput.alice_bit
      alice_bases := sim.alice_bases ++ rounds.map RoundInput.alice_basis
      bob_bases := sim.bob_bases ++ rounds.map RoundInput.bob_basis
      bob_bits := sim.bob_bits ++ rounds.map (bobBitEntry sim.eve_intercept)
      eve_bits := sim.eve_bits ++ rounds.flatMap (eveBitsEntry sim.eve_intercept)
      eve_bases := sim.eve_bases ++ rounds.flatMap (eveBasesEntry sim.eve_intercept) } := by
  induction rounds generalizing sim with
  | nil => simp [runSends]
  | cons r rs ih =>
    have h1 : runSends sim (r :: rs) =
        runSends (sim.send_bit r.alice_bit r.alice_basis r.bob_basis r.rand) rs := rfl
    rw [h1, ih, send_bit_eq]
    simp [List.append_assoc]

theorem resolveIdx_lengths {ab : List ℕ} {abas : List Basis}
    {st st' : List (Option ℕ) × List (Option Basis)} {i : ℕ}
    (h : resolveIdx ab abas st i = some st') :
    st'.1.length = st.1.length ∧ st'.2.length = st.2.length := by
  unfold resolveIdx at h
  split at h
  · exact absurd h (by simp)
  · simp_all
  · split at h
    · exact absurd h (by simp)
    · simp_all
    · split at h
      · obtain rfl := (Option.some_inj).mp h
        simp
      · exact absurd h (by simp)

theorem resolveIdx_untouched {ab : List ℕ} {abas : List Basis}
    {st st' : List (Option ℕ) × List (Option Basis)} {i : ℕ}
    (h : resolveIdx ab abas st i = some st') {j : ℕ} (hj : j ≠ i) :
    st'.1[j]? = st.1[j]? ∧ st'.2[j]? = st.2[j]? := by
  unfold resolveIdx at h
  split at h
  · exact absurd h (by simp)
  · simp_all
  · split at h
    · exact absurd h (by simp)
    · simp_all
    · split at h
      · obtain rfl := (Option.some_inj).mp h
        exact ⟨List.getElem?_set_ne (Ne.symm hj), List.getElem?_set_ne (Ne.symm hj)⟩
      · exact absurd h (by simp)

theorem resolveLoop_lengths {ab : List ℕ} {abas : List Basis} :
    ∀ {idxs : List ℕ} {st st' : List (Option ℕ) × List (Option Basis)},
      resolveLoop ab abas idxs st = some st' →
      st'.1.length = st.1.length ∧ st'.2.length = st.2.length := by
  intro idxs
  induction idxs with
  | nil => intro st st' h; obtain rfl := (Option.some_inj).mp h; exact ⟨rfl, rfl⟩
  | cons i rest ih =>
    intro st st' h
    unfold resolveLoop at h
    split at h
    · exact absurd h (by simp)
    · rename_i st₁ h₁
      obtain ⟨e1, e2⟩ := resolveIdx_lengths h₁
      obtain ⟨f1, f2⟩ := ih h
      exact ⟨f1.trans e1, f2.trans e2⟩

theorem resolveLoop_untouched {ab : List ℕ} {abas : List Basis} :
    ∀ {idxs : List ℕ} {st st' : List (Option ℕ) × List (Option Basis)},
      resolveLoop ab abas idxs st = some st' → ∀ j, j ∉ idxs →
      st'.1[j]? = st.1[j]? ∧ st'.2[j]? = st.2[j]? := by
  intro idxs
  induction idxs with
  | nil =>
    intro st st' h j _
    obtain rfl := (Option.some_inj).mp h
    exact ⟨rfl, rfl⟩
  | cons i rest ih =>
    intro st st' h j hj
    unfold resolveLoop at h
    split at h
    · exact absurd h (by simp)
    · rename_i st₁ h₁
      have hji : j ≠ i := fun hc => hj (hc ▸ List.mem_cons_self i rest)
      have hjr : j ∉ rest := fun hc => hj (List.mem_cons_of_mem i hc)
      obtain ⟨e1, e2⟩ := resolveIdx_untouched h₁ hji
      obtain ⟨f1, f2⟩ := ih h j hjr
      exact ⟨f1.trans e1, f2.trans e2⟩

theorem resolveLoop_spec (ab : List ℕ) (abas : List Basis) :
    ∀ (idxs : List ℕ) (st : List (Option ℕ) × List (Option Basis)),
      idxs.Nodup → (∀ i ∈ idxs, i < st.1.length) →
      st.2.length = st.1.length → st.1.length ≤ ab.length →
      st.1.length ≤ abas.length →
      ∃ st', resolveLoop ab abas idxs st = some st' ∧
        (∀ j, j ∉ idxs → st'.1[j]? = st.1[j]? ∧ st'.2[j]? = st.2[j]?) ∧
        ∀ j ∈ idxs, st'.1[j]? = newBitAt ab st.1 st.2 j ∧
          st'.2[j]? = newBasisAt abas st.1 st.2 j := by
  intro idxs
  induction idxs with
  | nil =>
    intro st _ _ _ _ _
    exact ⟨st, rfl, fun j _ => ⟨rfl, rfl⟩, fun j hj => absurd hj (List.not_mem_nil j)⟩
  | cons i rest ih =>
    intro st hnd hmem h2 hma hmb
    have hi : i < st.1.length := hmem i (List.mem_cons_self i rest)
    have hi2 : i < st.2.length := h2 ▸ hi
    have hndr : rest.Nodup := (List.nodup_cons.mp hnd).2
    have hir : i ∉ rest := (List.nodup_cons.mp hnd).1
    obtain ⟨b, hb⟩ : ∃ b, st.1[i]? = some b := ⟨st.1[i], List.getElem?_eq_getElem hi⟩
    cases b with
    | some v =>
      have hstep : resolveIdx ab abas st i = some st := by
        simp [resolveIdx, hb]
      obtain ⟨st', hloop, hunt, hmem'⟩ := ih st hndr
        (fun j hj => hmem j (List.mem_cons_of_mem i hj)) h2 hma hmb
      refine ⟨st', by simp [resolveLoop, hstep, hloop], ?_, ?_⟩
      · exact fun j hj => hunt j (fun hc => hj (List.mem_cons_of_mem i hc))
      · intro j hj
        rcases List.mem_cons.mp hj with rfl | hjr
        · obtain ⟨u1, u2⟩ := hunt j hir
          constructor
          · rw [u1, newBitAt, if_neg (by simp [hb])]
          · rw [u2, newBasisAt, if_neg (by simp [hb])]
        · exact hmem' j hjr
    | none =>
      obtain ⟨e, he⟩ : ∃ e, st.2[i]? = some e := ⟨st.2[i], List.getElem?_eq_getElem hi2⟩
      cases e with
      | some bs =>
        have hstep : resolveIdx ab abas st i = some st := by
          simp [resolveIdx, hb, he]
        obtain ⟨st', hloop, hunt, hmem'⟩ := ih st hndr
          (fun j hj => hmem j (List.mem_cons_of_mem i hj)) h2 hma hmb
        refine ⟨st', by simp [resolveLoop, hstep, hloop], ?_, ?_⟩
        · exact fun j hj => hunt j (fun hc => hj (List.mem_cons_of_mem i hc))
        · intro j hj
          rcases List.mem_cons.mp hj with rfl | hjr
          · obtain ⟨u1, u2⟩ := hunt j hir
            constructor
            · rw [u1, newBitAt, if_neg (by simp [he])]
            · rw [u2, newBasisAt, if_neg (by simp [he])]
          · exact hmem' j hjr
      | none =>
        have hia : i < ab.length := lt_of_lt_of_le hi hma
        have hib : i < abas.length := lt_of_lt_of_le hi hmb
        have hab : ab[i]? = some (ab[i]) := List.getElem?_eq_getElem hia
        have habas : abas[i]? = some (abas[i]) := List.getElem?_eq_getElem hib
        have hstep : resolveIdx ab abas st i =
            some (st.1.set i (some (ab[i])), st.2.set i (some (abas[i]))) := by
          simp [resolveIdx, hb, he, hab, habas]
        have hset1 : ∀ j, j ≠ i →
            (st.1.set i (some (ab[i])))[j]? = st.1[j]? :=
          fun j hj => List.getElem?_set_ne (Ne.symm hj)
        have hset2 : ∀ j, j ≠ i →
            (st.2.set i (some (abas[i])))[j]? = st.2[j]? :=
          fun j hj => List.getElem?_set_ne (Ne.symm hj)
        obtain ⟨st', hloop, hunt, hmem'⟩ := ih
          (st.1.set i (some (ab[i])), st.2.set i (some (abas[i]))) hndr
          (fun j hj => by
            simpa using hmem j (List.mem_cons_of_mem i hj))
          (by simpa using h2) (by simpa using hma) (by simpa using hmb)
        refine ⟨st', by simp [resolveLoop, hstep, hloop], ?_, ?_⟩
        · intro j hj
          have hji : j ≠ i := fun hc => hj (hc ▸ List.mem_cons_self i rest)
          have hjr : j ∉ rest := fun hc => hj (List.mem_cons_of_mem i hc)
          obtain ⟨u1, u2⟩ := hunt j hjr
          exact ⟨u1.trans (hset1 j hji), u2.trans (hset2 j hji)⟩
        · intro j hj
          rcases List.mem_cons.mp hj with rfl | hjr
          · obtain ⟨u1, u2⟩ := hunt j hir
            constructor
            · rw [u1, List.getElem?_set_self hi, newBitAt, if_pos ⟨hb, he⟩, hab]
              rfl
            · rw [u2, List.getElem?_set_self hi2, newBasisAt, if_pos ⟨hb, he⟩, habas]
              rfl
          · have hji : j ≠ i := fun hc => hir (hc ▸ hjr)
            obtain ⟨u1, u2⟩ := hmem' j hjr
            constructor
            · rw [u1, newBitAt, newBitAt, hset1 j hji, hset2 j hji]
            · rw [u2, newBasisAt, newBasisAt, hset1 j hji, hset2 j hji]

theorem eve_delayed_measurement_spec (sim : PNSAttackSimulator)
    (h2 : sim.eve_bases.length = sim.eve_bits.length)
    (ha : sim.eve_bits.length ≤ sim.alice_bits.length)
    (hb : sim.eve_bits.length ≤ sim.alice_bases.length) :
    ∃ sim', sim.eve_delayed_measurement = some sim' ∧
      sim'.mean_photon_number = sim.mean_photon_number ∧
      sim'.eve_intercept = sim.eve_intercept ∧
      sim'.alice_bits = sim.alice_bits ∧ sim'.alice_bases = sim.alice_bases ∧
      sim'.bob_bits = sim.bob_bits ∧ sim'.bob_bases = sim.bob_bases ∧
      ∀ j, sim'.eve_bits[j]? = newBitAt sim.alice_bits sim.eve_bits sim.eve_bases j ∧
        sim'.eve_bases[j]? = newBasisAt sim.alice_bases sim.eve_bits sim.eve_bases j := by
  obtain ⟨st', hloop, hunt, hmem⟩ := resolveLoop_spec sim.alice_bits sim.alice_bases
    (List.range sim.eve_bits.length) (sim.eve_bits, sim.eve_bases)
    (List.nodup_range sim.eve_bits.length) (fun i hi => List.mem_range.mp hi) h2 ha hb
  obtain ⟨l1, l2⟩ := resolveLoop_lengths hloop
  refine ⟨{ sim with eve_bits := st'.1, eve_bases := st'.2 }, ?_, rfl, rfl, rfl, rfl,
    rfl, rfl, ?_⟩
  · simp [PNSAttackSimulator.eve_delayed_measurement, hloop]
  · intro j
    by_cases hj : j < sim.eve_bits.length
    · exact hmem j (List.mem_range.mpr hj)
    · push_neg at hj
      have hb1 : sim.eve_bits[j]? = none := List.getElem?_eq_none hj
      have hb2 : sim.eve_bases[j]? = none := List.getElem?_eq_none (le_of_eq_of_le h2 hj)
      constructor
      · rw [show ({ sim with eve_bits := st'.1, eve_bases := st'.2 } :
            PNSAttackSimulator).eve_bits = st'.1 from rfl,
          List.getElem?_eq_none (le_of_eq_of_le l1 hj), newBitAt,
          if_neg (by simp [hb1]), hb1]
      · rw [show ({ sim with eve_bits := st'.1, eve_bases := st'.2 } :
            PNSAttackSimulator).eve_bases = st'.2 from rfl,
          List.getElem?_eq_none (le_of_eq_of_le l2 (le_of_eq_of_le h2 hj)), newBasisAt,
          if_neg (by simp [hb1]), hb2]

theorem resolveIdx_settledAt {ab : List ℕ} {abas : List Basis}
    {st st' : List (Option ℕ) × List (Option Basis)} {i : ℕ}
    (h : resolveIdx ab abas st i = some st') : settledAt st' i := by
  rcases hv : st.1[i]? with _ | b
  · simp [resolveIdx, hv] at h
  · rcases b with _ | v
    · rcases he : st.2[i]? with _ | e
      · simp [resolveIdx, hv, he] at h
      · rcases e with _ | bs
        · rcases hbas : abas[i]? with _ | basis
          · simp [resolveIdx, hv, he, hbas] at h
          · rcases hbit : ab[i]? with _ | bit
            · simp [resolveIdx, hv, he, hbas, hbit] at h
            · obtain ⟨hlt, -⟩ := List.getElem?_eq_some_iff.mp hv
              simp only [resolveIdx, hv, he, hbas, hbit] at h
              obtain rfl := Option.some_inj.mp h
              exact Or.inl ⟨bit, by simpa using List.getElem?_set_self hlt⟩
        · simp only [resolveIdx, hv, he] at h
          obtain rfl := Option.some_inj.mp h
          exact Or.inr ⟨hv, bs, he⟩
    · simp only [resolveIdx, hv] at h
      obtain rfl := Option.some_inj.mp h
      exact Or.inl ⟨v, hv⟩

theorem resolveIdx_of_settledAt {ab : List ℕ} {abas : List Basis}
    {st : List (Option ℕ) × List (Option Basis)} {i : ℕ}
    (h : settledAt st i) : resolveIdx ab abas st i = some st := by
  rcases h with ⟨v, hv⟩ | ⟨hv, b, hbb⟩
  · simp [resolveIdx, hv]
  · simp [resolveIdx, hv, hbb]

theorem resolveLoop_idem {ab : List ℕ} {abas : List Basis} :
    ∀ {idxs : List ℕ} {st st' : List (Option ℕ) × List (Option Basis)},
      idxs.Nodup → resolveLoop ab abas idxs st = some st' →
      resolveLoop ab abas idxs st' = some st' := by
  intro idxs
  induction idxs with
  | nil =>
    intro st st' _ h
    obtain rfl := Option.some_inj.mp h
    rfl
  | cons i rest ih =>
    intro st st' hnd h
    unfold resolveLoop at h
    split at h
    · exact absurd h (by simp)
    · rename_i st₁ h₁
      have hir : i ∉ rest := (List.nodup_cons.mp hnd).1
      have hndr := (List.nodup_cons.mp hnd).2
      have hstl : settledAt st₁ i := resolveIdx_settledAt h₁
      obtain ⟨u1, u2⟩ := resolveLoop_untouched h i hir
      have hstl' : settledAt st' i := by
        rcases hstl with ⟨v, hv⟩ | ⟨hv, b, hbb⟩
        · exact Or.inl ⟨v, u1.trans hv⟩
        · exact Or.inr ⟨u1.trans hv, b, u2.trans hbb⟩
      have hstep : resolveIdx ab abas st' i = some st' := resolveIdx_of_settledAt hstl'
      have hrest : resolveLoop ab abas rest st' = some st' := ih hndr h
      simp [resolveLoop, hstep, hrest]

theorem runSends_init (m : ℚ) (e : Bool) (rounds : List RoundInput) :
    runSends (PNSAttackSimulator.init m e) rounds =
      ⟨m, e, rounds.map RoundInput.alice_bit, rounds.map RoundInput.alice_basis,
        rounds.map (bobBitEntry e), rounds.map RoundInput.bob_basis,
        rounds.flatMap (eveBitsEntry e), rounds.flatMap (eveBasesEntry e)⟩ := by
  rw [runSends_eq]
  rfl

theorem flatMap_eq_map {α β : Type} {f : α → List β} {g : α → β} :
    ∀ {l : List α}, (∀ a ∈ l, f a = [g a]) → l.flatMap f = l.map g := by
  intro l
  induction l with
  | nil => intro _; rfl
  | cons x xs ih =>
    intro h
    rw [List.flatMap_cons, h x (List.mem_cons_self x xs),
      ih (fun a ha => h a (List.mem_cons_of_mem x ha))]
    rfl

theorem flatMap_length_le {α β : Type} {f : α → List β} :
    ∀ {l : List α}, (∀ a ∈ l, (f a).length ≤ 1) →
      (l.flatMap f).length ≤ l.length := by
  intro l
  induction l with
  | nil => intro _; simp
  | cons x xs ih =>
    intro h
    rw [List.flatMap_cons, List.length_append]
    have h1 := h x (List.mem_cons_self x xs)
    have h2 := ih (fun a ha => h a (List.mem_cons_of_mem x ha))
    have := Nat.add_le_add h1 h2
    simp only [List.length_cons]
    omega

theorem flatMap_length_eq {α β γ : Type} {f : α → List β} {g : α → List γ} :
    ∀ {l : List α}, (∀ a ∈ l, (f a).length = (g a).length) →
      (l.flatMap f).length = (l.flatMap g).length := by
  intro l
  induction l with
  | nil => intro _; rfl
  | cons x xs ih =>
    intro h
    rw [List.flatMap_cons, List.flatMap_cons, List.length_append, List.length_append,
      h x (List.mem_cons_self x xs), ih (fun a ha => h a (List.mem_cons_of_mem x ha))]

theorem eveBitsEntry_true (r : RoundInput) : eveBitsEntry true r = [eveBitT r] := by
  simp only [eveBitsEntry, eveBitT]
  split_ifs <;> simp_all

theorem eveBasesEntry_true_nonvacuum {r : RoundInput}
    (h : photonCount r.rand.photonDraw ≠ 0) :
    eveBasesEntry true r = [eveBasisT r] := by
  simp only [eveBasesEntry, eveBasisT]
  split_ifs <;> simp_all

theorem eveBitsEntry_false_nonvacuum {r : RoundInput}
    (h : photonCount r.rand.photonDraw ≠ 0) :
    eveBitsEntry false r = [none] := by
  simp only [eveBitsEntry]
  split_ifs <;> simp_all

theorem eveBasesEntry_false_nonvacuum {r : RoundInput}
    (h : photonCount r.rand.photonDraw ≠ 0) :
    eveBasesEntry false r = [none] := by
  simp only [eveBasesEntry]
  split_ifs <;> simp_all

theorem eveEntries_false_length (r : RoundInput) :
    (eveBitsEntry false r).length = (eveBasesEntry false r).length := by
  simp only [eveBitsEntry, eveBasesEntry]
  split_ifs <;> simp_all

theorem eveBitsEntry_length_le (e : Bool) (r : RoundInput) :
    (eveBitsEntry e r).length ≤ 1 := by
  simp only [eveBitsEntry]
  split_ifs <;> simp

/-- C9: the photon-count sampler does not depend on the configured
`mean_photon_number` (or any other instance state): two simulators
constructed differently return the same count on the same random draw; the
count is always one of 0, 1, 2; and over the uniform draw space the three
outcomes are hit with weights 0.70, 0.25 and 0.05 (70, 25 and 5 of the 100
equiprobable draw values). -/
theorem generate_photon_number_ignores_mean :
    (∀ (s₁ s₂ : PNSAttackSimulator) (u : ℕ),
      s₁.generate_photon_number u = s₂.generate_photon_number u) ∧
    (∀ (s : PNSAttackSimulator) (u : ℕ),
      s.generate_photon_number u = 0 ∨ s.generate_photon_number u = 1 ∨
        s.generate_photon_number u = 2) ∧
    (List.range 100).countP (fun u => photonCount u = 0) = 70 ∧
    (List.range 100).countP (fun u => photonCount u = 1) = 25 ∧
    (List.range 100).countP (fun u => photonCount u = 2) = 5 := by
  refine ⟨fun _ _ _ => rfl, fun s u => ?_, by decide, by decide, by decide⟩
  simp only [PNSAttackSimulator.generate_photon_number, photonCount]
  split_ifs <;> simp

/-- C4: in every run, whatever the attack mode and bases, a round's
receiver bit is the "no detection" sentinel `none` exactly when that
round's sampled photon count is 0. -/
theorem receiver_none_iff_vacuum (m : ℚ) (e : Bool) (rounds : List RoundInput)
    (i : ℕ) (r : RoundInput) (hr : rounds[i]? = some r) :
    (runSends (PNSAttackSimulator.init m e) rounds).bob_bits[i]? = some none ↔
      photonCount r.rand.photonDraw = 0 := by
  rw [runSends_init]
  show (rounds.map (bobBitEntry e))[i]? = some none ↔ _
  rw [List.getElem?_map, hr]
  simp only [Option.map_some', Option.some_inj]
  unfold bobBitEntry
  split_ifs <;> simp_all

theorem receiver_none_iff_vacuum_witness :
    ((([⟨0, Basis.Z, Basis.Z, ⟨0, Basis.Z, 0, 0⟩⟩] :
        List RoundInput))[0]? = some ⟨0, Basis.Z, Basis.Z, ⟨0, Basis.Z, 0, 0⟩⟩) ∧
    ((runSends (PNSAttackSimulator.init 0 true)
        [⟨0, Basis.Z, Basis.Z, ⟨0, Basis.Z, 0, 0⟩⟩]).bob_bits[0]? = some none ↔
      photonCount 0 = 0) :=
  ⟨rfl, receiver_none_iff_vacuum 0 true _ 0 _ rfl⟩

/-- C6: with the attack disabled, any round with photon count 1 or 2 whose
sender and receiver bases match records the sender's bit at the receiver,
for every draw of the remaining randomness. -/
theorem matching_basis_fidelity_no_attack (m : ℚ) (rounds : List RoundInput)
    (i : ℕ) (r : RoundInput) (hr : rounds[i]? = some r)
    (hpc : photonCount r.rand.photonDraw = 1 ∨ photonCount r.rand.photonDraw = 2)
    (hbb : r.alice_basis = r.bob_basis) :
    (runSends (PNSAttackSimulator.init m false) rounds).bob_bits[i]? =
      some (some r.alice_bit) := by
  rw [runSends_init]
  show (rounds.map (bobBitEntry false))[i]? = _
  rw [List.getElem?_map, hr]
  simp only [Option.map_some', Option.some_inj]
  unfold bobBitEntry
  rcases hpc with h | h <;> simp [h, hbb]

theorem matching_basis_fidelity_no_attack_witness :
    ((([⟨1, Basis.X, Basis.X, ⟨80, Basis.Z, 0, 0⟩⟩] :
        List RoundInput))[0]? = some ⟨1, Basis.X, Basis.X, ⟨80, Basis.Z, 0, 0⟩⟩) ∧
    (photonCount 80 = 1 ∨ photonCount 80 = 2) ∧ Basis.X = Basis.X ∧
    (runSends (PNSAttackSimulator.init 0 false)
        [⟨1, Basis.X, Basis.X, ⟨80, Basis.Z, 0, 0⟩⟩]).bob_bits[0]? =
      some (some 1) :=
  ⟨rfl, Or.inl rfl, rfl,
    matching_basis_fidelity_no_attack 0
      [⟨1, Basis.X, Basis.X, ⟨80, Basis.Z, 0, 0⟩⟩] 0
      ⟨1, Basis.X, Basis.X, ⟨80, Basis.Z, 0, 0⟩⟩ rfl (Or.inl rfl) rfl⟩

/-- C5: with the attack enabled and photon count exactly 1 (intercept-
resend): if Eve's drawn basis equals the sender's basis then Eve's recorded
bit equals the sender's bit; and whenever the receiver's basis equals Eve's
drawn basis, the receiver's recorded bit equals Eve's recorded bit. -/
theorem intercept_resend_correct (m : ℚ) (rounds : List RoundInput)
    (i : ℕ) (r : RoundInput) (hr : rounds[i]? = some r)
    (hpc : photonCount r.rand.photonDraw = 1) :
    (r.rand.eveBasisDraw = r.alice_basis →
      (runSends (PNSAttackSimulator.init m true) rounds).eve_bits[i]? =
        some (some r.alice_bit)) ∧
    (r.bob_basis = r.rand.eveBasisDraw →
      (runSends (PNSAttackSimulator.init m true) rounds).bob_bits[i]? =
        (runSends (PNSAttackSimulator.init m true) rounds).eve_bits[i]?) := by
  rw [runSends_init]
  show (r.rand.eveBasisDraw = r.alice_basis →
      (rounds.flatMap (eveBitsEntry true))[i]? = some (some r.alice_bit)) ∧
    (r.bob_basis = r.rand.eveBasisDraw →
      (rounds.map (bobBitEntry true))[i]? = (rounds.flatMap (eveBitsEntry true))[i]?)
  rw [flatMap_eq_map (fun a _ => eveBitsEntry_true a), List.getElem?_map,
    List.getElem?_map, hr]
  simp only [Option.map_some', Option.some_inj]
  constructor
  · intro heb
    unfold eveBitT
    simp [hpc, heb]
  · intro hbb
    unfold eveBitT bobBitEntry
    simp [hpc, hbb]

theorem intercept_resend_correct_witness :
    ((([⟨1, Basis.Z, Basis.Z, ⟨80, Basis.Z, 0, 0⟩⟩] :
        List RoundInput))[0]? = some ⟨1, Basis.Z, Basis.Z, ⟨80, Basis.Z, 0, 0⟩⟩) ∧
    photonCount 80 = 1 ∧
    ((Basis.Z = Basis.Z →
      (runSends (PNSAttackSimulator.init 0 true)
          [⟨1, Basis.Z, Basis.Z, ⟨80, Basis.Z, 0, 0⟩⟩]).eve_bits[0]? =
        some (some 1)) ∧
    (Basis.Z = Basis.Z →
      (runSends (PNSAttackSimulator.init 0 true)
          [⟨1, Basis.Z, Basis.Z, ⟨80, Basis.Z, 0, 0⟩⟩]).bob_bits[0]? =
        (runSends (PNSAttackSimulator.init 0 true)
          [⟨1, Basis.Z, Basis.Z, ⟨80, Basis.Z, 0, 0⟩⟩]).eve_bits[0]?)) :=
  ⟨rfl, rfl, intercept_resend_correct 0
    [⟨1, Basis.Z, Basis.Z, ⟨80, Basis.Z, 0, 0⟩⟩] 0
    ⟨1, Basis.Z, Basis.Z, ⟨80, Basis.Z, 0, 0⟩⟩ rfl rfl⟩

/-- C1: evaluation at the failing input.  A single `send_bit` call whose
sampled photon count is 0 (draw 0), with the attack enabled, leaves
`eve_bases` empty while all five other history lists have length 1: the
vacuum branch appends the sentinel to `eve_bits` but forgets `eve_bases`,
so the alignment invariant is broken after this `transmit` call. -/
theorem alignment_broken_by_vacuum :
    ((PNSAttackSimulator.init 0 true).send_bit 0 Basis.Z Basis.Z
      ⟨0, Basis.Z, 0, 0⟩).alice_bits.length = 1 ∧
    ((PNSAttackSimulator.init 0 true).send_bit 0 Basis.Z Basis.Z
      ⟨0, Basis.Z, 0, 0⟩).alice_bases.length = 1 ∧
    ((PNSAttackSimulator.init 0 true).send_bit 0 Basis.Z Basis.Z
      ⟨0, Basis.Z, 0, 0⟩).bob_bases.length = 1 ∧
    ((PNSAttackSimulator.init 0 true).send_bit 0 Basis.Z Basis.Z
      ⟨0, Basis.Z, 0, 0⟩).bob_bits.length = 1 ∧
    ((PNSAttackSimulator.init 0 true).send_bit 0 Basis.Z Basis.Z
      ⟨0, Basis.Z, 0, 0⟩).eve_bits.length = 1 ∧
    ((PNSAttackSimulator.init 0 true).send_bit 0 Basis.Z Basis.Z
      ⟨0, Basis.Z, 0, 0⟩).eve_bases.length = 0 :=
  ⟨rfl, rfl, rfl, rfl, rfl, rfl⟩

/-- C2: evaluation at the failing input.  Attack enabled, three rounds:
vacuum (draw 0), multi-photon (draw 99, photon count 2, sender bit 1), and
single-photon (draw 80).  The vacuum round shifts `eve_bases` by one: the
resolver's condition fires at index 0 instead of index 1, and after
`eve_delayed_measurement` the multi-photon round's eavesdropper bit is
still the sentinel `none` instead of the sender's bit 1. -/
theorem pns_deferral_fails_after_vacuum :
    photonCount multiRound.rand.photonDraw = 2 ∧
    (runSends (PNSAttackSimulator.init 0 true)
      [vacuumRound, multiRound, singleRound]).alice_bits[1]? = some 1 ∧
    (runSends (PNSAttackSimulator.init 0 true)
      [vacuumRound, multiRound, singleRound]).eve_bits[1]? = some none ∧
    (runSends (PNSAttackSimulator.init 0 true)
      [vacuumRound, multiRound, singleRound]).eve_delayed_measurement.map
      PNSAttackSimulator.eve_bits = some [some 0, none, some 1] :=
  ⟨rfl, rfl, rfl, rfl⟩

/-- C3: evaluation at the failing input — the spec's own concrete scenario
(attack disabled, photon count 1 via draw 80, sender bit 0, both bases X).
After `transmit` the eavesdropper fields are the sentinel, but a subsequent
`eve_delayed_measurement` does assign them (`eve_bit = 0`,
`eve_basis = X`): the resolver does not distinguish attack-disabled rounds
from deferred-PNS rounds, so the fields do not remain unresolved. -/
theorem no_attack_round_resolved_concrete :
    (runSends (PNSAttackSimulator.init 0 false) [xRound]).bob_bits = [some 0] ∧
    (runSends (PNSAttackSimulator.init 0 false) [xRound]).eve_bits = [none] ∧
    (runSends (PNSAttackSimulator.init 0 false) [xRound]).eve_bases = [none] ∧
    (runSends (PNSAttackSimulator.init 0 false)
      [xRound]).eve_delayed_measurement.map PNSAttackSimulator.eve_bits =
      some [some 0] ∧
    (runSends (PNSAttackSimulator.init 0 false)
      [xRound]).eve_delayed_measurement.map PNSAttackSimulator.eve_bases =
      some [some Basis.X] :=
  ⟨rfl, rfl, rfl, rfl, rfl⟩

/-- C7: evaluation at the failing input.  Attack enabled, a vacuum round
(draw 0) followed by a single-photon round (draw 80): at index 0 the
eavesdropper bit is the unresolved sentinel while the eavesdropper basis
holds the resolved value `Z` appended by the second round — one field
resolved without the other. -/
theorem eve_fields_not_paired :
    (runSends (PNSAttackSimulator.init 0 true)
      [vacuumRound, singleRound]).eve_bits[0]? = some none ∧
    (runSends (PNSAttackSimulator.init 0 true)
      [vacuumRound, singleRound]).eve_bases[0]? = some (some Basis.Z) :=
  ⟨rfl, rfl⟩

/-- C10 counterexample: a history containing a vacuum round with the attack
enabled makes the resolver read `eve_bases[0]` with `eve_bases` empty — the
Python loop raises `IndexError`, modelled here as the resolver returning
`none`. -/
theorem resolve_crashes_on_vacuum :
    (runSends (PNSAttackSimulator.init 0 true)
      [⟨0, Basis.Z, Basis.Z, ⟨0, Basis.Z, 0, 0⟩⟩]).eve_delayed_measurement =
      none :=
  rfl

/-- C8: `eve_delayed_measurement` is idempotent on every state (with
failure propagated as in Python): once one resolution pass has succeeded,
every index is settled, so a second pass changes nothing and succeeds. -/
theorem resolve_idempotent (sim : PNSAttackSimulator) :
    sim.eve_delayed_measurement.bind PNSAttackSimulator.eve_delayed_measurement =
      sim.eve_delayed_measurement := by
  rcases hres : resolveLoop sim.alice_bits sim.alice_bases
      (List.range sim.eve_bits.length) (sim.eve_bits, sim.eve_bases) with _ | st'
  · simp [PNSAttackSimulator.eve_delayed_measurement, hres]
  · obtain ⟨l1, l2⟩ := resolveLoop_lengths hres
    have hidem := resolveLoop_idem (List.nodup_range sim.eve_bits.length) hres
    simp only [PNSAttackSimulator.eve_delayed_measurement, hres, Option.map_some',
      Option.some_bind]
    rw [show st'.1.length = sim.eve_bits.length from l1,
      show (st'.1, st'.2) = st' from rfl, hidem]
    rfl

/-- C10 (amended): the resolver's list accesses are all in bounds — it
returns a result rather than failing — for every history produced by
`transmit` calls in which the attack is disabled or no round is a vacuum
round.  (The unrestricted claim is refuted: with the attack enabled, a
vacuum round leaves `eve_bases` shorter than `eve_bits` and the loop reads
`eve_bases[i]` out of bounds.) -/
theorem resolve_safe (m : ℚ) (e : Bool) (rounds : List RoundInput)
    (h : e = false ∨ ∀ r ∈ rounds, photonCount r.rand.photonDraw ≠ 0) :
    ((runSends (PNSAttackSimulator.init m e) rounds).eve_delayed_measurement).isSome =
      true := by
  have hbits_le : (rounds.flatMap (eveBitsEntry e)).length ≤ rounds.length :=
    flatMap_length_le (fun r _ => eveBitsEntry_length_le e r)
  have heq : (rounds.flatMap (eveBasesEntry e)).length =
      (rounds.flatMap (eveBitsEntry e)).length := by
    rcases h with rfl | hnv
    · exact flatMap_length_eq (fun r _ => (eveEntries_false_length r).symm)
    · apply flatMap_length_eq
      intro r hr
      have hnr := hnv r hr
      cases e
      · rw [eveBitsEntry_false_nonvacuum hnr, eveBasesEntry_false_nonvacuum hnr]
        rfl
      · rw [eveBitsEntry_true r, eveBasesEntry_true_nonvacuum hnr]
        rfl
  have hsim := runSends_init m e rounds
  have h2 : (runSends (PNSAttackSimulator.init m e) rounds).eve_bases.length =
      (runSends (PNSAttackSimulator.init m e) rounds).eve_bits.length := by
    rw [hsim]
    exact heq
  have ha : (runSends (PNSAttackSimulator.init m e) rounds).eve_bits.length ≤
      (runSends (PNSAttackSimulator.init m e) rounds).alice_bits.length := by
    rw [hsim]
    show (rounds.flatMap (eveBitsEntry e)).length ≤
      (rounds.map RoundInput.alice_bit).length
    rw [List.length_map]
    exact hbits_le
  have hb : (runSends (PNSAttackSimulator.init m e) rounds).eve_bits.length ≤
      (runSends (PNSAttackSimulator.init m e) rounds).alice_bases.length := by
    rw [hsim]
    show (rounds.flatMap (eveBitsEntry e)).length ≤
      (rounds.map RoundInput.alice_basis).length
    rw [List.length_map]
    exact hbits_le
  obtain ⟨sim', hres, -⟩ := eve_delayed_measurement_spec _ h2 ha hb
  rw [hres]
  rfl

theorem resolve_safe_witness :
    ((true = false) ∨ ∀ r ∈ ([⟨1, Basis.Z, Basis.Z, ⟨80, Basis.Z, 0, 0⟩⟩] :
        List RoundInput), photonCount r.rand.photonDraw ≠ 0) ∧
    ((runSends (PNSAttackSimulator.init 0 true)
        [⟨1, Basis.Z, Basis.Z, ⟨80, Basis.Z, 0, 0⟩⟩]).eve_delayed_measurement).isSome =
      true :=
  ⟨Or.inr (by decide),
    resolve_safe 0 true [⟨1, Basis.Z, Basis.Z, ⟨80, Basis.Z, 0, 0⟩⟩]
      (Or.inr (by decide))⟩

theorem pns_deferral_no_vacuum (m : ℚ) (rounds : List RoundInput)
    (hnv : ∀ r ∈ rounds, photonCount r.rand.photonDraw ≠ 0)
    (i : ℕ) (r : RoundInput) (hr : rounds[i]? = some r)
    (hpc : 1 < photonCount r.rand.photonDraw) :
    (runSends (PNSAttackSimulator.init m true) rounds).eve_bits[i]? = some none ∧
    (runSends (PNSAttackSimulator.init m true) rounds).eve_bases[i]? = some none ∧
    ∃ sim', (runSends (PNSAttackSimulator.init m true)
        rounds).eve_delayed_measurement = some sim' ∧
      sim'.eve_bits[i]? = some (some r.alice_bit) ∧
      sim'.eve_bases[i]? = some (some r.alice_basis) := by
  have h0 : photonCount r.rand.photonDraw ≠ 0 := by omega
  have hsim := runSends_init m true rounds
  have hbits : (runSends (PNSAttackSimulator.init m true) rounds).eve_bits =
      rounds.map eveBitT := by
    rw [hsim]
    exact flatMap_eq_map (fun a _ => eveBitsEntry_true a)
  have hbases : (runSends (PNSAttackSimulator.init m true) rounds).eve_bases =
      rounds.map eveBasisT := by
    rw [hsim]
    exact flatMap_eq_map (fun a ha => eveBasesEntry_true_nonvacuum (hnv a ha))
  have halice : (runSends (PNSAttackSimulator.init m true) rounds).alice_bits =
      rounds.map RoundInput.alice_bit := by
    rw [hsim]
  have halicebases :
      (runSends (PNSAttackSimulator.init m true) rounds).alice_bases =
      rounds.map RoundInput.alice_basis := by
    rw [hsim]
  have hbI : (runSends (PNSAttackSimulator.init m true) rounds).eve_bits[i]? =
      some none := by
    rw [hbits, List.getElem?_map, hr]
    simp [eveBitT, h0, hpc]
  have hbasI : (runSends (PNSAttackSimulator.init m true) rounds).eve_bases[i]? =
      some none := by
    rw [hbases, List.getElem?_map, hr]
    simp [eveBasisT, hpc]
  have h2 : (runSends (PNSAttackSimulator.init m true) rounds).eve_bases.length =
      (runSends (PNSAttackSimulator.init m true) rounds).eve_bits.length := by
    rw [hbits, hbases, List.length_map, List.length_map]
  have ha : (runSends (PNSAttackSimulator.init m true) rounds).eve_bits.length ≤
      (runSends (PNSAttackSimulator.init m true) rounds).alice_bits.length := by
    rw [hbits, halice, List.length_map, List.length_map]
  have hb : (runSends (PNSAttackSimulator.init m true) rounds).eve_bits.length ≤
      (runSends (PNSAttackSimulator.init m true) rounds).alice_bases.length := by
    rw [hbits, halicebases, List.length_map, List.length_map]
  obtain ⟨sim', hres, -, -, -, -, -, -, hpt⟩ :=
    eve_delayed_measurement_spec _ h2 ha hb
  refine ⟨hbI, hbasI, sim', hres, ?_, ?_⟩
  · have hpt1 := (hpt i).1
    rw [newBitAt, if_pos ⟨hbI, hbasI⟩, halice, List.getElem?_map, hr] at hpt1
    simpa using hpt1
  · have hpt2 := (hpt i).2
    rw [newBasisAt, if_pos ⟨hbI, hbasI⟩, halicebases, List.getElem?_map, hr] at hpt2
    simpa using hpt2

theorem no_attack_fields_resolved (m : ℚ) (rounds : List RoundInput)
    (hnv : ∀ r ∈ rounds, photonCount r.rand.photonDraw ≠ 0)
    (i : ℕ) (r : RoundInput) (hr : rounds[i]? = some r) :
    (runSends (PNSAttackSimulator.init m false) rounds).eve_bits[i]? = some none ∧
    (runSends (PNSAttackSimulator.init m false) rounds).eve_bases[i]? = some none ∧
    ∃ sim', (runSends (PNSAttackSimulator.init m false)
        rounds).eve_delayed_measurement = some sim' ∧
      sim'.eve_bits[i]? = some (some r.alice_bit) ∧
      sim'.eve_bases[i]? = some (some r.alice_basis) := by
  have hsim := runSends_init m false rounds
  have hbits : (runSends (PNSAttackSimulator.init m false) rounds).eve_bits =
      rounds.map (fun _ => (none : Option ℕ)) := by
    rw [hsim]
    exact flatMap_eq_map (fun a ha => eveBitsEntry_false_nonvacuum (hnv a ha))
  have hbases : (runSends (PNSAttackSimulator.init m false) rounds).eve_bases =
      rounds.map (fun _ => (none : Option Basis)) := by
    rw [hsim]
    exact flatMap_eq_map (fun a ha => eveBasesEntry_false_nonvacuum (hnv a ha))
  have halice : (runSends (PNSAttackSimulator.init m false) rounds).alice_bits =
      rounds.map RoundInput.alice_bit := by
    rw [hsim]
  have halicebases :
      (runSends (PNSAttackSimulator.init m false) rounds).alice_bases =
      rounds.map RoundInput.alice_basis := by
    rw [hsim]
  have hbI : (runSends (PNSAttackSimulator.init m false) rounds).eve_bits[i]? =
      some none := by
    rw [hbits, List.getElem?_map, hr]
    rfl
  have hbasI : (runSends (PNSAttackSimulator.init m false) rounds).eve_bases[i]? =
      some none := by
    rw [hbases, List.getElem?_map, hr]
    rfl
  have h2 : (runSends (PNSAttackSimulator.init m false) rounds).eve_bases.length =
      (runSends (PNSAttackSimulator.init m false) rounds).eve_bits.length := by
    rw [hbits, hbases, List.length_map, List.length_map]
  have ha : (runSends (PNSAttackSimulator.init m false) rounds).eve_bits.length ≤
      (runSends (PNSAttackSimulator.init m false) rounds).alice_bits.length := by
    rw [hbits, halice, List.length_map, List.length_map]
  have hb : (runSends (PNSAttackSimulator.init m false) rounds).eve_bits.length ≤
      (runSends (PNSAttackSimulator.init m false) rounds).alice_bases.length := by
    rw [hbits, halicebases, List.length_map, List.length_map]
  obtain ⟨sim', hres, -, -, -, -, -, -, hpt⟩ :=
    eve_delayed_measurement_spec _ h2 ha hb
  refine ⟨hbI, hbasI, sim', hres, ?_, ?_⟩
  · have hpt1 := (hpt i).1
    rw [newBitAt, if_pos ⟨hbI, hbasI⟩, halice, List.getElem?_map, hr] at hpt1
    simpa using hpt1
  · have hpt2 := (hpt i).2
    rw [newBasisAt, if_pos ⟨hbI, hbasI⟩, halicebases, List.getElem?_map, hr] at hpt2
    simpa using hpt2

end PNS
